import Mathlib

/-!
Verification of the paste-tool clipboard normalization engine.

Strings are modelled as lists of characters.  Functions are translated from
`src/index.ts` and `src/htmlSnapshot.ts`; DOM queries, network fetches and the
canvas surface are external collaborators and appear as explicit inputs
(per-element image counts, an inline-image resolver, and success flags).
-/

namespace PasteTool

abbrev Str := List Char

/-! ## Text fragment merging (`combinePlainTextFragments`, `TextCollector.merge`) -/

/-- `LINE_BREAK_TEST_PATTERN = /[\r\n]/` applied via `.test`. -/
def containsLineBreak (s : Str) : Bool :=
  s.any (fun c => c == '\r' || c == '\n')

/-- `combined.replace(/\r?\n/g, '\n')`: a left-to-right scan replacing each
CRLF pair by a lone newline and leaving every other character in place. -/
def normalizeLineEndings : Str → Str
  | [] => []
  | [c] => [c]
  | c1 :: c2 :: rest =>
    if c1 = '\r' ∧ c2 = '\n' then '\n' :: normalizeLineEndings rest
    else c1 :: normalizeLineEndings (c2 :: rest)

/-- JavaScript `fragments.join(separator)`. -/
def joinWith (separator : Str) : List Str → Str
  | [] => []
  | [fragment] => fragment
  | fragment :: rest => fragment ++ separator ++ joinWith separator rest

/-- `combinePlainTextFragments` from `src/index.ts`. -/
def combinePlainTextFragments (fragments : List Str) : Str :=
  if fragments.isEmpty then []
  else
    let hasLineBreak := fragments.any containsLineBreak
    let separator : Str := if hasLineBreak then ['\n'] else ['\t']
    let combined := joinWith separator fragments
    normalizeLineEndings combined

/-- `combineRtfFragments`: `fragments[0] ?? ''`. -/
def combineRtfFragments (fragments : List Str) : Str :=
  fragments.headD []

/-- Spec-side helper: the separator the merge chooses (newline when any
fragment holds a line break, else tab). -/
def chosenSeparator (fragments : List Str) : Char :=
  if fragments.any containsLineBreak then '\n' else '\t'

/-- Spec-side helper: splitting a string on a separator character, as
JavaScript `String.prototype.split` does for a one-character separator. -/
def splitOnChar (sep : Char) : Str → List Str
  | [] => [[]]
  | c :: rest =>
    let r := splitOnChar sep rest
    if c = sep then [] :: r
    else (c :: r.headD []) :: r.tail

/-! ### Basic lemmas about the text helpers -/

theorem normalizeLineEndings_cons2 (c1 c2 : Char) (rest : Str) :
    normalizeLineEndings (c1 :: c2 :: rest) =
      if c1 = '\r' ∧ c2 = '\n' then '\n' :: normalizeLineEndings rest
      else c1 :: normalizeLineEndings (c2 :: rest) := rfl

theorem splitOnChar_ne_nil (sep : Char) (cs : Str) : splitOnChar sep cs ≠ [] := by
  cases cs with
  | nil => simp [splitOnChar]
  | cons c rest =>
    simp only [splitOnChar]
    split <;> simp

theorem splitOnChar_length (sep : Char) (cs : Str) :
    (splitOnChar sep cs).length = cs.count sep + 1 := by
  induction cs with
  | nil => simp [splitOnChar]
  | cons c rest ih =>
    simp only [splitOnChar]
    by_cases h : c = sep
    · simp [h, List.count_cons, ih]
    · have hne := splitOnChar_ne_nil sep rest
      rcases hr : splitOnChar sep rest with _ | ⟨piece, pieces⟩
      · exact absurd hr hne
      · simp [h, List.count_cons, Ne.symm h, ← ih, hr]

theorem normalizeLineEndings_of_no_newline (cs : Str) (h : '\n' ∉ cs) :
    normalizeLineEndings cs = cs := by
  induction cs using normalizeLineEndings.induct with
  | case1 => rfl
  | case2 c => rfl
  | case3 c1 c2 rest hif ih =>
    rw [normalizeLineEndings_cons2, if_pos hif]
    exact absurd (by simp [hif.2]) h
  | case4 c1 c2 rest hif ih =>
    rw [normalizeLineEndings_cons2, if_neg hif]
    have : '\n' ∉ c2 :: rest := fun hmem => h (List.mem_cons_of_mem c1 hmem)
    rw [ih this]

theorem normalizeLineEndings_count_newline (cs : Str) :
    (normalizeLineEndings cs).count '\n' = cs.count '\n' := by
  induction cs using normalizeLineEndings.induct with
  | case1 => rfl
  | case2 c => rfl
  | case3 c1 c2 rest hif ih =>
    rw [normalizeLineEndings_cons2, if_pos hif]
    obtain ⟨h1, h2⟩ := hif
    subst h1; subst h2
    simp [List.count_cons, ih]
  | case4 c1 c2 rest hif ih =>
    rw [normalizeLineEndings_cons2, if_neg hif]
    simp [List.count_cons, ih]

theorem mem_joinWith (separator : Str) (fragments : List Str) (c : Char)
    (h : c ∈ joinWith separator fragments) :
    c ∈ separator ∨ ∃ f ∈ fragments, c ∈ f := by
  induction fragments with
  | nil => simp [joinWith] at h
  | cons f rest ih =>
    cases rest with
    | nil =>
      simp only [joinWith] at h
      exact Or.inr ⟨f, by simp, h⟩
    | cons g rest2 =>
      simp only [joinWith, List.mem_append] at h
      rcases h with (hf | hsep) | hrest
      · exact Or.inr ⟨f, by simp, hf⟩
      · exact Or.inl hsep
      · rcases ih hrest with hs | ⟨f2, hf2, hc⟩
        · exact Or.inl hs
        · exact Or.inr ⟨f2, List.mem_cons_of_mem _ hf2, hc⟩

theorem count_joinWith (sep : Char) (fragments : List Str) (hne : fragments ≠ [])
    (hfree : ∀ f ∈ fragments, sep ∉ f) :
    (joinWith [sep] fragments).count sep = fragments.length - 1 := by
  induction fragments with
  | nil => exact absurd rfl hne
  | cons f rest ih =>
    cases rest with
    | nil =>
      simp only [joinWith, List.length_cons, List.length_nil]
      have : sep ∉ f := hfree f (by simp)
      simp [List.count_eq_zero.mpr this]
    | cons g rest2 =>
      have hf : sep ∉ f := hfree f (by simp)
      have hrest : ∀ x ∈ g :: rest2, sep ∉ x :=
        fun x hx => hfree x (List.mem_cons_of_mem f hx)
      simp only [joinWith, List.count_append]
      rw [ih (by simp) hrest]
      simp [List.count_eq_zero.mpr hf, List.count_cons]
      omega

/-! ## The merged text payload (`ClipboardTextPayload`, `TextCollector.merge`) -/

/-- `ClipboardTextPayload` from `src/index.ts`: per format, `null` or the
merged string. -/
structure ClipboardTextPayload where
  html : Option Str
  rtf : Option Str
  plain : Option Str
deriving DecidableEq, Repr

/-- The fragment lists accumulated by `TextCollector.add`, one bucket per
text MIME type in `TEXT_MIME_PRIORITY` order (html, rtf, plain). -/
structure TextBuckets where
  html : List Str
  rtf : List Str
  plain : List Str
deriving DecidableEq, Repr

/-- The ternary `fragments.length === 1 ? fragments[0] : combine(fragments)`
used for each format inside `TextCollector.merge`. -/
def mergeFragments (combine : List Str → Str) (fragments : List Str) : Str :=
  if fragments.length = 1 then fragments.headD [] else combine fragments

/-- `TextCollector.merge`.  `combineHtmlFragments` synthesizes a table via the
DOM, an external collaborator, so it is passed in as a parameter. -/
def textCollectorMerge (combineHtmlFragments : List Str → Str)
    (b : TextBuckets) : Option ClipboardTextPayload :=
  let payload : ClipboardTextPayload := {
    html := if b.html.length > 0 then some (mergeFragments combineHtmlFragments b.html) else none
    rtf := if b.rtf.length > 0 then some (mergeFragments combineRtfFragments b.rtf) else none
    plain := if b.plain.length > 0 then some (mergeFragments combinePlainTextFragments b.plain) else none }
  if payload.html ≠ none ∨ payload.rtf ≠ none ∨ payload.plain ≠ none then some payload
  else none

/-- The spec's "preferred" text value: the merged string of the
highest-ranked non-null format (html over rtf over plain). -/
def preferredText (p : ClipboardTextPayload) : Option Str :=
  match p.html with
  | some h => some h
  | none =>
    match p.rtf with
    | some r => some r
    | none => p.plain

/-! ## The image branch of `onPaste` -/

/-- The route the image branch of `onPaste` takes once the image payload has
been collected: zero blobs fall through to the snapshot/text fallback, a
single blob with no layout hint is returned unchanged, anything else is
composited by `mergeImages`. -/
inductive ImagePasteRoute (α : Type) where
  | fallback
  | passThrough (blob : α)
  | composite (blobs : List α) (layoutHtml : Option Str)
deriving DecidableEq

/-- The branch structure of `onPaste` at lines 135-153 of `src/index.ts`,
abstracted over the blob type (the branch inspects only the count and the
presence of the layout hint). -/
def routeImageRequest {α : Type} : List α → Option Str → ImagePasteRoute α
  | [], _ => ImagePasteRoute.fallback
  | [blob], none => ImagePasteRoute.passThrough blob
  | blobs, layoutHtml => ImagePasteRoute.composite blobs layoutHtml

/-! ## Layout inference (`deriveRowStructure`, `inferImageLayout`) -/

/-- A decoded bitmap: only its intrinsic width and height matter to the
layout (`getBitmapWidth` / `getBitmapHeight`). -/
structure Bitmap where
  width : Nat
  height : Nat
deriving DecidableEq, Repr

/-- `ImageLayout` from `src/index.ts`. -/
structure ImageLayout where
  width : Nat
  height : Nat
  positions : List (Nat × Nat)
deriving DecidableEq, Repr

/-- `sumCounts`: `values.reduce((total, value) => total + value, 0)`. -/
def sumCounts (values : List Nat) : Nat :=
  values.foldl (fun total value => total + value) 0

/-- What the DOM queries of `deriveRowStructure` observe on a parsed hint
document: the `<img>` count per `<tr>`, and, per block selector in
`['p', 'div', 'section', 'article', 'figure']` order, the `<img>` count per
matched element. -/
structure ParsedDoc where
  trImgCounts : List Nat
  blockImgCounts : List (List Nat)
deriving DecidableEq, Repr

/-- A layout hint string as `deriveRowStructure` observes it: whether the
`<img`-tag regex matches at all, the parse result (`null` when the DOM
parser is unavailable or throws), and the `<img>` count per `<br>`-split
segment of the raw markup. -/
structure LayoutHint where
  hasImgTag : Bool
  doc : Option ParsedDoc
  segmentImgCounts : List Nat
deriving DecidableEq, Repr

/-- `extractRowsFromTables`: keep the positive per-`<tr>` image counts,
`null` when none. -/
def extractRowsFromTables (trImgCounts : List Nat) : Option (List Nat) :=
  let rows := trImgCounts.filter (fun count => 0 < count)
  if rows.length > 0 then some rows else none

/-- `extractRowsFromBreaks`: keep the positive per-segment image counts,
`null` when none. -/
def extractRowsFromBreaks (segmentImgCounts : List Nat) : Option (List Nat) :=
  let rows := segmentImgCounts.filter (fun count => 0 < count)
  if rows.length > 0 then some rows else none

/-- `extractRowsFromBlockElements`: walk the selector categories in order and
stop at the first category yielding any row. -/
def extractRowsFromBlockElements : List (List Nat) → Option (List Nat)
  | [] => none
  | elementCounts :: restSelectors =>
    let rows := elementCounts.filter (fun count => 0 < count)
    if rows.length > 0 then some rows else extractRowsFromBlockElements restSelectors

/-- The guard `if (x && sumCounts(x) === count) return x` applied to each
candidate inside `deriveRowStructure`. -/
def acceptIfSums (count : Nat) : Option (List Nat) → Option (List Nat)
  | some rows => if sumCounts rows = count then some rows else none
  | none => none

/-- `deriveRowStructure` from `src/index.ts`: try table rows, then block
elements (both only when the hint parsed), then break segments, accepting a
candidate only when its counts sum exactly to `count`. -/
def deriveRowStructure (count : Nat) : Option LayoutHint → Option (List Nat)
  | none => none
  | some hint =>
    if !hint.hasImgTag then none
    else
      let fromTables :=
        acceptIfSums count (hint.doc.bind fun doc => extractRowsFromTables doc.trImgCounts)
      let fromBlocks :=
        acceptIfSums count (hint.doc.bind fun doc => extractRowsFromBlockElements doc.blockImgCounts)
      let fromBreaks := acceptIfSums count (extractRowsFromBreaks hint.segmentImgCounts)
      fromTables.orElse fun _ => fromBlocks.orElse fun _ => fromBreaks

/-- The table-derived candidate row structure of a hint, before the sum
check. -/
def tableCandidate (hint? : Option LayoutHint) : Option (List Nat) :=
  hint?.bind fun hint => hint.doc.bind fun doc => extractRowsFromTables doc.trImgCounts

/-- The block-element-derived candidate row structure of a hint, before the
sum check. -/
def blockCandidate (hint? : Option LayoutHint) : Option (List Nat) :=
  hint?.bind fun hint => hint.doc.bind fun doc => extractRowsFromBlockElements doc.blockImgCounts

/-- The break-segment-derived candidate row structure of a hint, before the
sum check. -/
def breakCandidate (hint? : Option LayoutHint) : Option (List Nat) :=
  hint?.bind fun hint => extractRowsFromBreaks hint.segmentImgCounts

/-! ## The compositor layout (`buildLayoutFromRows`) -/

/-- The inner bitmap walk of one row of `buildLayoutFromRows`: each image is
placed at the running `xOffset`, which then grows by the image's width. -/
def placeRow : List Bitmap → Nat → Nat → List (Nat × Nat)
  | [], _, _ => []
  | bitmap :: rest, xOffset, yOffset =>
    (xOffset, yOffset) :: placeRow rest (xOffset + bitmap.width) yOffset

/-- The accumulated `rowWidth` of one row. -/
def rowWidth (row : List Bitmap) : Nat :=
  (row.map Bitmap.width).sum

/-- The accumulated `rowHeight` (running maximum) of one row. -/
def rowHeight (row : List Bitmap) : Nat :=
  (row.map Bitmap.height).foldl max 0

/-- The trailing `if (index < bitmaps.length)` loop of `buildLayoutFromRows`:
each leftover bitmap is placed at `x = 0` on its own row. -/
def layoutTrailing : List Bitmap → Nat → Nat → List (Nat × Nat) × Nat × Nat
  | [], yOffset, maxWidth => ([], maxWidth, yOffset)
  | bitmap :: rest, yOffset, maxWidth =>
    let r := layoutTrailing rest (yOffset + bitmap.height) (max maxWidth bitmap.width)
    ((0, yOffset) :: r.1, r.2)

/-- The main `for (const requestedCount of counts)` loop of
`buildLayoutFromRows`, returning the positions pushed together with the
final `maxWidth` and `yOffset` accumulators.  The loop breaks as soon as no
bitmap remains; otherwise the row takes `min(requestedCount, remaining)`
bitmaps. -/
def layoutLoop : List Nat → List Bitmap → Nat → Nat → List (Nat × Nat) × Nat × Nat
  | [], rest, yOffset, maxWidth => layoutTrailing rest yOffset maxWidth
  | requestedCount :: counts, rest, yOffset, maxWidth =>
    if rest.length = 0 then ([], maxWidth, yOffset)
    else
      let row := rest.take requestedCount
      let r := layoutLoop counts (rest.drop requestedCount)
        (yOffset + rowHeight row) (max maxWidth (rowWidth row))
      (placeRow row 0 yOffset ++ r.1, r.2)

/-- `buildLayoutFromRows` from `src/index.ts`: filter out non-positive
counts, pad with one extra row holding every unassigned bitmap when the
counts under-account, run the placement loop, and clamp the canvas to at
least 1×1. -/
def buildLayoutFromRows (bitmaps : List Bitmap) (rowCounts : List Nat) : ImageLayout :=
  let counts := rowCounts.filter (fun count => 0 < count)
  let totalFromRows := sumCounts counts
  let paddedCounts :=
    if totalFromRows < bitmaps.length then counts ++ [bitmaps.length - totalFromRows]
    else counts
  let r := layoutLoop paddedCounts bitmaps 0 0
  { width := max 1 r.2.1, height := max 1 r.2.2, positions := r.1 }

/-- `inferImageLayout`: `buildLayoutFromRows(bitmaps, rows ?? [bitmaps.length])`. -/
def inferImageLayout (bitmaps : List Bitmap) (hint? : Option LayoutHint) : ImageLayout :=
  let rows := deriveRowStructure bitmaps.length hint?
  buildLayoutFromRows bitmaps (rows.getD [bitmaps.length])

/-! ## Spec-side description of the compositor placement

These definitions follow the spec's words for section 4.4 ("within a row,
each image is placed left-to-right at increasing x-offset equal to the
cumulative width of prior images in that row, at a shared y-offset equal to
the cumulative height of all prior rows; total canvas width = max row width
across all rows; total canvas height = sum of row heights") and are compared
with `buildLayoutFromRows`. -/

/-- Grouping the bitmaps into rows following a row-count structure. -/
def groupByCounts : List Nat → List Bitmap → List (List Bitmap)
  | [], _ => []
  | count :: counts, bitmaps => bitmaps.take count :: groupByCounts counts (bitmaps.drop count)

/-- Spec wording: within a row at y-offset `yOffset`, the i-th image sits at
an x-offset equal to the sum of the widths of the images before it. -/
def specRowPositions (row : List Bitmap) (yOffset : Nat) : List (Nat × Nat) :=
  (List.range row.length).map fun i => (((row.take i).map Bitmap.width).sum, yOffset)

/-- Spec wording: rows are stacked; each row's y-offset is the cumulative
height of all prior rows (a row's height being its maximum image height). -/
def specPositions : List (List Bitmap) → Nat → List (Nat × Nat)
  | [], _ => []
  | row :: rows, yOffset => specRowPositions row yOffset ++ specPositions rows (yOffset + rowHeight row)

/-- Spec wording: total canvas width = max row width across all rows. -/
def specCanvasWidth (rows : List (List Bitmap)) : Nat :=
  (rows.map rowWidth).foldl max 0

/-- Spec wording: total canvas height = sum of row heights. -/
def specCanvasHeight (rows : List (List Bitmap)) : Nat :=
  (rows.map rowHeight).sum

/-- The layout a given grouping of rows describes, under the spec's placement
wording, with the canvas clamped to at least 1×1. -/
def specLayoutOf (rows : List (List Bitmap)) : ImageLayout :=
  { width := max 1 (specCanvasWidth rows)
    height := max 1 (specCanvasHeight rows)
    positions := specPositions rows 0 }

/-- The grouping claimed by C6's reading of under-accounting structures:
every unassigned image becomes its own single-image row below the structure's
rows. -/
def singleRowsAppendedGroups (counts : List Nat) (bitmaps : List Bitmap) : List (List Bitmap) :=
  let assigned := sumCounts counts
  groupByCounts counts (bitmaps.take assigned) ++ (bitmaps.drop assigned).map (fun b => [b])

/-! ## The rasterization fallback (`rasterizeSvgMarkup`) -/

/-- The outcome of `rasterizeSvgMarkup`: an encoded raster image, the
serialized SVG document as passthrough, or `null`. -/
inductive RasterResult where
  | raster (data : Str)
  | svg (markup : Str)
  | failed
deriving DecidableEq, Repr

/-- The external collaborators of `rasterizeSvgMarkup`: whether constructing
a `Blob` from the SVG markup succeeds, whether a canvas 2D context is
usable, whether the decode/draw/export chain (`loadBitmap`, `getContext`,
`drawImage`, `canvasToBlob`) succeeds, and the encoded bytes it produces
when it does. -/
structure RasterEnv where
  serializeOk : Bool
  canvas2DAvailable : Bool
  decodeDrawOk : Bool
  rasterOutput : Str
deriving DecidableEq, Repr

/-- `rasterizeSvgMarkup` from `src/htmlSnapshot.ts`: an SVG target returns
the serialized document (or `null` if serialization throws); a raster
target returns the SVG when no canvas is usable, the encoded canvas output
when decode/draw succeeds, and otherwise falls back to serializing the SVG
once more, yielding `null` only when that serialization also fails. -/
def rasterizeSvgMarkup (svgMarkup : Str) (isSvgTarget : Bool) (env : RasterEnv) : RasterResult :=
  if isSvgTarget then
    if env.serializeOk then RasterResult.svg svgMarkup else RasterResult.failed
  else if env.serializeOk && !env.canvas2DAvailable then RasterResult.svg svgMarkup
  else if env.serializeOk && env.canvas2DAvailable && env.decodeDrawOk then
    RasterResult.raster env.rasterOutput
  else if env.serializeOk then RasterResult.svg svgMarkup
  else RasterResult.failed

/-! ## Image source collection (`hydrateInlineImages` and callers) -/

/-- `ClipboardImagePayload`: the collected binary blobs plus the optional
layout hint markup (`none` stands for a `null` or empty hint, both falsy in
the source's guards). -/
structure ImgPayload (α : Type) where
  blobs : List α
  html : Option Str
deriving DecidableEq, Repr

/-- `hydrateInlineImages` from `src/index.ts`, instrumented with a flag
recording whether inline extraction was performed.  `extractInline` stands
for `extractInlineImagesFromHtml` (DOM parsing plus data-URI/fetch
resolution, an external collaborator). -/
def hydrateInlineImages {α : Type} (extractInline : Str → List α)
    (payload : ImgPayload α) : ImgPayload α × Bool :=
  if payload.blobs.length > 0 then (payload, false)
  else
    match payload.html with
    | none => (payload, false)
    | some html =>
      let inlineBlobs := extractInline html
      if inlineBlobs.length > 0 then
        ({ payload with blobs := payload.blobs ++ inlineBlobs }, true)
      else (payload, true)

/-- One item returned by the asynchronous clipboard read, as
`collectBlobsFromClipboardItem` observes it: the blob delivered by
`getType` on the preferred image representation (if any type matched and
the call succeeded), and the first html representation's text. -/
structure ClipboardItemModel (α : Type) where
  imageBlob : Option α
  html : Option Str
deriving DecidableEq, Repr

/-- `collectBlobsFromClipboardItem`: gather the item's preferred image blob
and html, then hydrate inline images on that per-item payload. -/
def collectBlobsFromClipboardItem {α : Type} (extractInline : Str → List α)
    (item : ClipboardItemModel α) : ImgPayload α × Bool :=
  let blobs := match item.imageBlob with
    | some blob => [blob]
    | none => []
  hydrateInlineImages extractInline { blobs := blobs, html := item.html }

/-- The first non-null html among the per-item payloads
(`if (!html && payload.html) html = payload.html`). -/
def firstHtml : List (Option Str) → Option Str
  | [] => none
  | some html :: _ => some html
  | none :: rest => firstHtml rest

/-- `collectImagesFromNavigator` (the part after a successful
`clipboard.read()`): collect every item's payload, concatenate the blobs,
keep the first html, and hydrate inline images once more on the aggregate.
The boolean records whether inline extraction ran anywhere. -/
def collectImagesFromNavigator {α : Type} (extractInline : Str → List α)
    (items : List (ClipboardItemModel α)) : ImgPayload α × Bool :=
  let results := items.map (collectBlobsFromClipboardItem extractInline)
  let blobs := (results.map (fun r => r.1.blobs)).flatten
  let html := firstHtml (results.map (fun r => r.1.html))
  let final := hydrateInlineImages extractInline { blobs := blobs, html := html }
  (final.1, results.any (fun r => r.2) || final.2)

/-- `collectImagesFromEvent`: the event-sourced blobs and html, hydrated.
The boolean records whether inline extraction ran. -/
def collectImagesFromEvent {α : Type} (extractInline : Str → List α)
    (eventBlobs : List α) (eventHtml : Option Str) : ImgPayload α × Bool :=
  hydrateInlineImages extractInline { blobs := eventBlobs, html := eventHtml }

/-! ## Lemmas about the compositor layout -/

theorem foldl_add_shift (l : List Nat) (a : Nat) :
    l.foldl (fun total value => total + value) a = a + l.sum := by
  induction l generalizing a with
  | nil => simp
  | cons c cs ih => simp [List.foldl_cons, ih, List.sum_cons]; omega

theorem sumCounts_eq_sum (l : List Nat) : sumCounts l = l.sum := by
  simpa [sumCounts] using foldl_add_shift l 0

theorem sumCounts_cons (c : Nat) (cs : List Nat) :
    sumCounts (c :: cs) = c + sumCounts cs := by
  simp [sumCounts_eq_sum, List.sum_cons]

theorem placeRow_length (row : List Bitmap) (x y : Nat) :
    (placeRow row x y).length = row.length := by
  induction row generalizing x with
  | nil => rfl
  | cons b rest ih => simp [placeRow, ih]

theorem placeRow_eq_spec (row : List Bitmap) (x y : Nat) :
    placeRow row x y =
      (List.range row.length).map
        (fun i => (x + ((row.take i).map Bitmap.width).sum, y)) := by
  induction row generalizing x with
  | nil => simp [placeRow]
  | cons b rest ih =>
    simp only [placeRow, List.length_cons, List.range_succ_eq_map, List.map_cons,
      List.map_map, List.take_zero, List.map_nil, List.sum_nil, Nat.add_zero]
    congr 1
    rw [ih (x + b.width)]
    apply List.map_congr_left
    intro i _
    simp [List.take_succ_cons, Nat.add_assoc, Function.comp]

theorem placeRow_zero_eq_specRow (row : List Bitmap) (y : Nat) :
    placeRow row 0 y = specRowPositions row y := by
  rw [placeRow_eq_spec, specRowPositions]
  apply List.map_congr_left
  intro i _
  simp

theorem layoutTrailing_fst_length (rest : List Bitmap) (y w : Nat) :
    (layoutTrailing rest y w).1.length = rest.length := by
  induction rest generalizing y w with
  | nil => rfl
  | cons b bs ih => simp [layoutTrailing, ih]

theorem layoutLoop_fst_length (counts : List Nat) (bitmaps : List Bitmap) (y w : Nat) :
    (layoutLoop counts bitmaps y w).1.length = bitmaps.length := by
  induction counts generalizing bitmaps y w with
  | nil => simp [layoutLoop, layoutTrailing_fst_length]
  | cons c cs ih =>
    simp only [layoutLoop]
    split
    · simp_all
    · next hne =>
      simp [List.length_append, placeRow_length, ih, List.length_take, List.length_drop]
      omega

theorem layoutLoop_eq_spec (counts : List Nat) (bitmaps : List Bitmap) (y w : Nat)
    (hpos : ∀ c ∈ counts, 0 < c) (hsum : sumCounts counts = bitmaps.length) :
    layoutLoop counts bitmaps y w =
      (specPositions (groupByCounts counts bitmaps) y,
       ((groupByCounts counts bitmaps).map rowWidth).foldl max w,
       y + specCanvasHeight (groupByCounts counts bitmaps)) := by
  induction counts generalizing bitmaps y w with
  | nil =>
    have : bitmaps = [] := by
      have := hsum
      simp [sumCounts_eq_sum] at this
      exact List.length_eq_zero.mp this.symm
    subst this
    simp [layoutLoop, layoutTrailing, groupByCounts, specPositions, specCanvasHeight]
  | cons c cs ih =>
    have hc : 0 < c := hpos c (by simp)
    have hsum' : c + sumCounts cs = bitmaps.length := by
      rw [← sumCounts_cons]; exact hsum
    have hlen : 0 < bitmaps.length := by omega
    have hne : ¬ bitmaps.length = 0 := by omega
    simp only [layoutLoop, if_neg hne]
    rw [ih (bitmaps.drop c) (y + rowHeight (bitmaps.take c)) (max w (rowWidth (bitmaps.take c)))
      (fun x hx => hpos x (List.mem_cons_of_mem c hx))
      (by simp [List.length_drop]; omega)]
    simp only [groupByCounts, specPositions, specCanvasHeight, List.map_cons, List.sum_cons,
      List.foldl_cons, Prod.mk.injEq]
    refine ⟨?_, by trivial, by omega⟩
    rw [placeRow_zero_eq_specRow]

theorem buildLayout_eq_spec (bitmaps : List Bitmap) (counts : List Nat)
    (hpos : ∀ c ∈ counts, 0 < c) (hsum : sumCounts counts = bitmaps.length) :
    buildLayoutFromRows bitmaps counts = specLayoutOf (groupByCounts counts bitmaps) := by
  have hfilter : counts.filter (fun count => 0 < count) = counts :=
    List.filter_eq_self.mpr (fun c hc => by simpa using hpos c hc)
  simp only [buildLayoutFromRows, hfilter]
  rw [hsum, if_neg (lt_irrefl bitmaps.length)]
  rw [layoutLoop_eq_spec counts bitmaps 0 0 hpos hsum]
  simp [specLayoutOf, specCanvasWidth]

/-! ## Lemmas about row-structure derivation -/

theorem acceptIfSums_eq_some {count : Nat} {o : Option (List Nat)} {rows : List Nat}
    (h : acceptIfSums count o = some rows) :
    sumCounts rows = count ∧ o = some rows := by
  cases o with
  | none => simp [acceptIfSums] at h
  | some r =>
    simp only [acceptIfSums] at h
    by_cases hs : sumCounts r = count
    · rw [if_pos hs] at h
      obtain rfl : r = rows := by simpa using h
      exact ⟨hs, rfl⟩
    · rw [if_neg hs] at h
      simp at h

theorem acceptIfSums_eq_none_of (count : Nat) (o : Option (List Nat))
    (h : ∀ rows, o = some rows → sumCounts rows ≠ count) :
    acceptIfSums count o = none := by
  cases o with
  | none => rfl
  | some r =>
    simp only [acceptIfSums]
    rw [if_neg (h r rfl)]

theorem orElse3_eq_some {a b c : Option (List Nat)} {rows : List Nat}
    (h : (a.orElse fun _ => b.orElse fun _ => c) = some rows) :
    a = some rows ∨ b = some rows ∨ c = some rows := by
  cases a <;> cases b <;> cases c <;> simp_all [Option.orElse]

/-! ## Claim theorems -/

/-- Claim C2: when exactly one candidate image is collected and no layout
hint exists, the image branch of `onPaste` returns that blob unchanged
(byte-identical, it is the very same value); with a layout hint present the
compositing path runs instead. -/
theorem claim_C2 {α : Type} (blob : α) (layoutHtml : Str) :
    routeImageRequest [blob] (none : Option Str) = ImagePasteRoute.passThrough blob
    ∧ routeImageRequest [blob] (some layoutHtml) =
        ImagePasteRoute.composite [blob] (some layoutHtml) :=
  ⟨rfl, rfl⟩

/-- Claim C10: for every bitmap list and every row-count list (empty,
zero-valued or over-counting included), `buildLayoutFromRows` returns
exactly one position per bitmap — the position list is parallel to the
input bitmap list — and the canvas width and height are each at least 1,
even when every bitmap is zero-sized. -/
theorem claim_C10 (bitmaps : List Bitmap) (rowCounts : List Nat) :
    (buildLayoutFromRows bitmaps rowCounts).positions.length = bitmaps.length
    ∧ 1 ≤ (buildLayoutFromRows bitmaps rowCounts).width
    ∧ 1 ≤ (buildLayoutFromRows bitmaps rowCounts).height := by
  refine ⟨?_, ?_, ?_⟩
  · simp only [buildLayoutFromRows]
    exact layoutLoop_fst_length _ _ _ _
  · exact Nat.le_max_left 1 _
  · exact Nat.le_max_left 1 _

/-- Claim C7: in `rasterizeSvgMarkup`, a raster-target run whose
decode/draw stage fails degrades to returning the serialized SVG document
(never an error surfaced to the caller), and the operation yields no result
only when constructing the SVG blob itself fails. -/
theorem claim_C7 (svgMarkup : Str) :
    (∀ env : RasterEnv, env.serializeOk = true → env.decodeDrawOk = false →
      rasterizeSvgMarkup svgMarkup false env = RasterResult.svg svgMarkup)
    ∧ (∀ (isSvgTarget : Bool) (env : RasterEnv),
      rasterizeSvgMarkup svgMarkup isSvgTarget env = RasterResult.failed →
      env.serializeOk = false) := by
  constructor
  · rintro ⟨s, c, d, out⟩ hser hdec
    simp only at hser hdec
    subst hser; subst hdec
    cases c <;> simp [rasterizeSvgMarkup]
  · rintro t ⟨s, c, d, out⟩ h
    cases s
    · rfl
    · exfalso
      cases t <;> cases c <;> cases d <;> simp [rasterizeSvgMarkup] at h

/-- Witness for C7 at a concrete environment: serialization succeeds, the
canvas is available, decode/draw fails, and the result is the SVG
passthrough. -/
theorem claim_C7_witness :
    rasterizeSvgMarkup ['a'] false ⟨true, true, false, []⟩ = RasterResult.svg ['a'] :=
  (claim_C7 ['a']).1 ⟨true, true, false, []⟩ rfl rfl

/-- Claim C3: merging two or more plain-text fragments joins them with a
newline when some fragment contains a line-break character ('\r' or '\n'),
with a tab when none does, and afterwards normalizes the joined result's
CRLF pairs to single newlines. -/
theorem claim_C3 (fragments : List Str) (hlen : 2 ≤ fragments.length) :
    ((∃ f ∈ fragments, ∃ c ∈ f, c = '\r' ∨ c = '\n') →
      combinePlainTextFragments fragments = normalizeLineEndings (joinWith ['\n'] fragments))
    ∧ ((∀ f ∈ fragments, ∀ c ∈ f, ¬(c = '\r' ∨ c = '\n')) →
      combinePlainTextFragments fragments = normalizeLineEndings (joinWith ['\t'] fragments)) := by
  have hne : fragments ≠ [] := by
    cases fragments
    · simp at hlen
    · simp
  constructor
  · intro hex
    have hbr : fragments.any containsLineBreak = true := by
      simp only [List.any_eq_true, containsLineBreak, Bool.or_eq_true, beq_iff_eq]
      obtain ⟨f, hf, c, hc, hor⟩ := hex
      exact ⟨f, hf, c, hc, hor⟩
    simp [combinePlainTextFragments, hne, hbr]
  · intro hall
    have hbr : fragments.any containsLineBreak = false := by
      by_contra hcon
      rw [Bool.not_eq_false, List.any_eq_true] at hcon
      obtain ⟨f, hf, hcb⟩ := hcon
      rw [containsLineBreak, List.any_eq_true] at hcb
      obtain ⟨c, hc, hor⟩ := hcb
      rw [Bool.or_eq_true, beq_iff_eq, beq_iff_eq] at hor
      exact hall f hf c hc hor
    simp [combinePlainTextFragments, hne, hbr]

/-- Witness for C3 at two single-line fragments: the merge joins them with a
tab. -/
theorem claim_C3_witness :
    combinePlainTextFragments [['a'], ['b']] =
      normalizeLineEndings (joinWith ['\t'] [['a'], ['b']]) :=
  (claim_C3 [['a'], ['b']] (by decide)).2 (by decide)

/-- Counterexample to C9 as stated: the fragments `"a\nb"` and `"c"` force
the newline separator, and splitting the merged result on it yields three
pieces, not the original two. -/
theorem claim_C9_counterexample :
    chosenSeparator [['a', '\n', 'b'], ['c']] = '\n'
    ∧ (splitOnChar '\n'
        (combinePlainTextFragments [['a', '\n', 'b'], ['c']])).length
      ≠ ([['a', '\n', 'b'], ['c']] : List Str).length := by decide

/-- Claim C9 (amended): splitting the merged output on the separator chosen
by the merge recovers the original fragment count, provided no fragment
contains the chosen separator character. -/
theorem claim_C9_amended (fragments : List Str) (hlen : 2 ≤ fragments.length)
    (hsep : ∀ f ∈ fragments, chosenSeparator fragments ∉ f) :
    (splitOnChar (chosenSeparator fragments)
      (combinePlainTextFragments fragments)).length = fragments.length := by
  have hne : fragments ≠ [] := by
    cases fragments
    · simp at hlen
    · simp
  by_cases hbr : fragments.any containsLineBreak
  · have hsepc : chosenSeparator fragments = '\n' := by simp [chosenSeparator, hbr]
    have hcombine : combinePlainTextFragments fragments =
        normalizeLineEndings (joinWith ['\n'] fragments) := by
      simp [combinePlainTextFragments, hne, hbr]
    rw [hsepc, hcombine, splitOnChar_length, normalizeLineEndings_count_newline,
      count_joinWith '\n' fragments hne (by simpa [hsepc] using hsep)]
    omega
  · have hbr' : fragments.any containsLineBreak = false := by simpa using hbr
    have hsepc : chosenSeparator fragments = '\t' := by simp [chosenSeparator, hbr']
    have hcombine : combinePlainTextFragments fragments =
        normalizeLineEndings (joinWith ['\t'] fragments) := by
      simp [combinePlainTextFragments, hne, hbr']
    have hnonl : '\n' ∉ joinWith ['\t'] fragments := by
      intro hmem
      rcases mem_joinWith ['\t'] fragments '\n' hmem with hs | ⟨f, hf, hc⟩
      · simp at hs
      · have : containsLineBreak f = true := by
          rw [containsLineBreak, List.any_eq_true]
          exact ⟨'\n', hc, by simp⟩
        have : fragments.any containsLineBreak = true :=
          List.any_eq_true.mpr ⟨f, hf, this⟩
        simp [this] at hbr'
    rw [hsepc, hcombine, normalizeLineEndings_of_no_newline _ hnonl, splitOnChar_length,
      count_joinWith '\t' fragments hne (by simpa [hsepc] using hsep)]
    omega

/-- Witness for the amended C9 at two tab-free single-line fragments. -/
theorem claim_C9_witness :
    (∀ f ∈ ([['a'], ['b']] : List Str), chosenSeparator [['a'], ['b']] ∉ f)
    ∧ (splitOnChar (chosenSeparator [['a'], ['b']])
        (combinePlainTextFragments [['a'], ['b']])).length
      = ([['a'], ['b']] : List Str).length :=
  ⟨by decide, claim_C9_amended [['a'], ['b']] (by decide) (by decide)⟩

/-- Counterexample to C4 as stated: a single 0-by-0 decoded image with the
accepted row structure `[1]` yields a canvas width of 1, while the maximum
row width is 0 — the canvas is clamped to at least 1 in each axis. -/
theorem claim_C4_counterexample :
    (buildLayoutFromRows [⟨0, 0⟩] [1]).width
      ≠ specCanvasWidth (groupByCounts [1] [⟨0, 0⟩]) := by decide

/-- Claim C4 (amended): for an accepted row structure (positive counts
summing to the image count), the compositor places each image at an
x-offset equal to the total width of the images before it in its row and a
y-offset equal to the total height of the prior rows (a row's height being
its maximum image height); the canvas width is the maximum row width and
the canvas height the sum of row heights, each clamped to at least 1.  In
particular, for `[2, 1]` with three images the height is
`max h1 h2 + h3` and the width `max (w1 + w2) w3`, clamped to at least 1. -/
theorem claim_C4_amended (bitmaps : List Bitmap) (counts : List Nat)
    (hpos : ∀ c ∈ counts, 0 < c) (hsum : sumCounts counts = bitmaps.length) :
    (buildLayoutFromRows bitmaps counts).positions
        = specPositions (groupByCounts counts bitmaps) 0
    ∧ (buildLayoutFromRows bitmaps counts).width
        = max 1 (specCanvasWidth (groupByCounts counts bitmaps))
    ∧ (buildLayoutFromRows bitmaps counts).height
        = max 1 (specCanvasHeight (groupByCounts counts bitmaps))
    ∧ (∀ b1 b2 b3 : Bitmap,
        (buildLayoutFromRows [b1, b2, b3] [2, 1]).height
            = max 1 (max b1.height b2.height + b3.height)
        ∧ (buildLayoutFromRows [b1, b2, b3] [2, 1]).width
            = max 1 (max (b1.width + b2.width) b3.width)) := by
  have h := buildLayout_eq_spec bitmaps counts hpos hsum
  refine ⟨by rw [h]; rfl, by rw [h]; rfl, by rw [h]; rfl, ?_⟩
  intro b1 b2 b3
  have h3 := buildLayout_eq_spec [b1, b2, b3] [2, 1] (by decide) (by rfl)
  rw [h3]
  constructor <;>
    simp [specLayoutOf, specCanvasWidth, specCanvasHeight, groupByCounts, rowWidth,
      rowHeight, Nat.zero_max]

/-- Witness for the amended C4 at two concrete bitmaps in one row. -/
theorem claim_C4_witness :
    sumCounts [2] = ([⟨2, 3⟩, ⟨4, 5⟩] : List Bitmap).length
    ∧ (buildLayoutFromRows [⟨2, 3⟩, ⟨4, 5⟩] [2]).positions
        = specPositions (groupByCounts [2] [⟨2, 3⟩, ⟨4, 5⟩]) 0 :=
  ⟨by decide, (claim_C4_amended [⟨2, 3⟩, ⟨4, 5⟩] [2] (by decide) (by decide)).1⟩

/-- Counterexample to C6 as stated: with three 1-by-1 images and the
under-accounting structure `[1]`, the code does not stack the two leftover
images as single-image rows — it appends them as one shared second row. -/
theorem claim_C6_counterexample :
    buildLayoutFromRows [⟨1, 1⟩, ⟨1, 1⟩, ⟨1, 1⟩] [1]
      ≠ specLayoutOf (singleRowsAppendedGroups [1] [⟨1, 1⟩, ⟨1, 1⟩, ⟨1, 1⟩]) := by decide

/-- Claim C6 (amended): when the row counts under-account for the images,
`buildLayoutFromRows` appends all remaining unassigned images together as
one additional row below the rows described by the structure. -/
theorem claim_C6_amended (bitmaps : List Bitmap) (counts : List Nat)
    (hpos : ∀ c ∈ counts, 0 < c) (hsum : sumCounts counts < bitmaps.length) :
    buildLayoutFromRows bitmaps counts =
      specLayoutOf
        (groupByCounts (counts ++ [bitmaps.length - sumCounts counts]) bitmaps) := by
  have hfilter : counts.filter (fun count => 0 < count) = counts :=
    List.filter_eq_self.mpr (fun c hc => by simpa using hpos c hc)
  have hpos' : ∀ c ∈ counts ++ [bitmaps.length - sumCounts counts], 0 < c := by
    intro c hc
    rcases List.mem_append.mp hc with hc | hc
    · exact hpos c hc
    · simp at hc
      omega
  have hsum' : sumCounts (counts ++ [bitmaps.length - sumCounts counts]) = bitmaps.length := by
    simp [sumCounts_eq_sum, List.sum_append]
    have := hsum
    rw [sumCounts_eq_sum] at this
    omega
  simp only [buildLayoutFromRows, hfilter, if_pos hsum]
  rw [layoutLoop_eq_spec (counts ++ [bitmaps.length - sumCounts counts]) bitmaps 0 0 hpos' hsum']
  simp [specLayoutOf, specCanvasWidth]

/-- Witness for the amended C6: three 1-by-1 images with structure `[1]`. -/
theorem claim_C6_witness :
    sumCounts [1] < ([⟨1, 1⟩, ⟨1, 1⟩, ⟨1, 1⟩] : List Bitmap).length
    ∧ buildLayoutFromRows [⟨1, 1⟩, ⟨1, 1⟩, ⟨1, 1⟩] [1] =
        specLayoutOf
          (groupByCounts
            ([1] ++ [([⟨1, 1⟩, ⟨1, 1⟩, ⟨1, 1⟩] : List Bitmap).length - sumCounts [1]])
            [⟨1, 1⟩, ⟨1, 1⟩, ⟨1, 1⟩]) :=
  ⟨by decide, claim_C6_amended [⟨1, 1⟩, ⟨1, 1⟩, ⟨1, 1⟩] [1] (by decide) (by decide)⟩

/-- Claim C1: a derived row structure is accepted only when its counts sum
exactly to the image count, and when every candidate (table rows, block
elements, line-break segments) fails the sum check, `deriveRowStructure`
rejects them all and layout inference falls back to the single row
`[bitmaps.length]`. -/
theorem claim_C1 (hint? : Option LayoutHint) (bitmaps : List Bitmap) :
    (∀ (count : Nat) (rows : List Nat),
      deriveRowStructure count hint? = some rows → sumCounts rows = count)
    ∧ ((∀ rows, tableCandidate hint? = some rows → sumCounts rows ≠ bitmaps.length) →
       (∀ rows, blockCandidate hint? = some rows → sumCounts rows ≠ bitmaps.length) →
       (∀ rows, breakCandidate hint? = some rows → sumCounts rows ≠ bitmaps.length) →
       deriveRowStructure bitmaps.length hint? = none
       ∧ inferImageLayout bitmaps hint? = buildLayoutFromRows bitmaps [bitmaps.length]) := by
  constructor
  · intro count rows h
    cases hint? with
    | none => simp [deriveRowStructure] at h
    | some hint =>
      simp only [deriveRowStructure] at h
      by_cases himg : hint.hasImgTag
      · simp only [himg, Bool.not_true, Bool.false_eq_true, if_false] at h
        rcases orElse3_eq_some h with h1 | h1 | h1 <;>
          exact (acceptIfSums_eq_some h1).1
      · simp [himg] at h
  · intro htab hblk hbrk
    have hnone : deriveRowStructure bitmaps.length hint? = none := by
      cases hint? with
      | none => rfl
      | some hint =>
        simp only [deriveRowStructure]
        by_cases himg : hint.hasImgTag
        · simp only [himg, Bool.not_true, Bool.false_eq_true, if_false]
          have h1 := acceptIfSums_eq_none_of bitmaps.length _
            (fun rows hr => htab rows (by simpa [tableCandidate] using hr))
          have h2 := acceptIfSums_eq_none_of bitmaps.length _
            (fun rows hr => hblk rows (by simpa [blockCandidate] using hr))
          have h3 := acceptIfSums_eq_none_of bitmaps.length _
            (fun rows hr => hbrk rows (by simpa [breakCandidate] using hr))
          rw [h1, h2, h3]
          rfl
        · simp [himg]
    exact ⟨hnone, by simp [inferImageLayout, hnone]⟩

/-- Witness for C1: a hint whose table, block and break candidates all sum
to values other than the (single) image count, so inference falls back to
one row. -/
theorem claim_C1_witness :
    deriveRowStructure ([(⟨5, 7⟩ : Bitmap)] : List Bitmap).length
        (some ⟨true, some ⟨[2], [[3]]⟩, [1, 2]⟩) = none
    ∧ inferImageLayout [⟨5, 7⟩] (some ⟨true, some ⟨[2], [[3]]⟩, [1, 2]⟩)
        = buildLayoutFromRows [⟨5, 7⟩] [([(⟨5, 7⟩ : Bitmap)] : List Bitmap).length] :=
  (claim_C1 (some ⟨true, some ⟨[2], [[3]]⟩, [1, 2]⟩) [⟨5, 7⟩]).2
    (by intro rows h; simp [tableCandidate, extractRowsFromTables] at h; subst h; decide)
    (by intro rows h; simp [blockCandidate, extractRowsFromBlockElements] at h; subst h; decide)
    (by intro rows h; simp [breakCandidate, extractRowsFromBreaks] at h; subst h; decide)

/-- Claim C5: whenever at least one fragment of some format was collected,
`TextCollector.merge` returns a payload exposing the merged string per
format, and the preferred value — the first non-null format in the fixed
html, rtf, plain priority order — is the merged string of the
highest-ranked format that had fragments. -/
theorem claim_C5 (combineHtmlFragments : List Str → Str) (b : TextBuckets)
    (hne : b.html ≠ [] ∨ b.rtf ≠ [] ∨ b.plain ≠ []) :
    ∃ payload,
      textCollectorMerge combineHtmlFragments b = some payload
      ∧ payload.html =
          (if b.html ≠ [] then some (mergeFragments combineHtmlFragments b.html) else none)
      ∧ payload.rtf =
          (if b.rtf ≠ [] then some (mergeFragments combineRtfFragments b.rtf) else none)
      ∧ payload.plain =
          (if b.plain ≠ [] then some (mergeFragments combinePlainTextFragments b.plain) else none)
      ∧ preferredText payload = some
          (if b.html ≠ [] then mergeFragments combineHtmlFragments b.html
           else if b.rtf ≠ [] then mergeFragments combineRtfFragments b.rtf
           else mergeFragments combinePlainTextFragments b.plain) := by
  by_cases hh : b.html = [] <;> by_cases hr : b.rtf = [] <;> by_cases hp : b.plain = [] <;>
    simp_all [textCollectorMerge, preferredText, List.length_pos, List.isEmpty_iff]

/-- Witness for C5 at a single plain fragment. -/
theorem claim_C5_witness :
    ((⟨[], [], [['h', 'i']]⟩ : TextBuckets).html ≠ []
      ∨ (⟨[], [], [['h', 'i']]⟩ : TextBuckets).rtf ≠ []
      ∨ (⟨[], [], [['h', 'i']]⟩ : TextBuckets).plain ≠ [])
    ∧ ∃ payload,
        textCollectorMerge (fun _ => []) ⟨[], [], [['h', 'i']]⟩ = some payload
        ∧ payload.html = none ∧ payload.rtf = none
        ∧ payload.plain = some (mergeFragments combinePlainTextFragments [['h', 'i']])
        ∧ preferredText payload = some (mergeFragments combinePlainTextFragments [['h', 'i']]) := by
  constructor
  · right; right; decide
  · obtain ⟨payload, hmerge, hhtml, hrtf, hplain, hpref⟩ :=
      claim_C5 (fun _ => []) ⟨[], [], [['h', 'i']]⟩ (by right; right; decide)
    simp only at hhtml hrtf hplain hpref
    exact ⟨payload, hmerge, by simpa using hhtml, by simpa using hrtf,
      by simpa using hplain, by simpa using hpref⟩

/-- Counterexample to C8 as stated: during the asynchronous platform read,
one item carries a binary image while another carries only markup with an
inline image; extraction still runs (for the markup-only item), even though
a binary image candidate was collected. -/
theorem claim_C8_counterexample :
    (collectImagesFromNavigator (fun _ => [42])
      [⟨some 1, none⟩, ⟨none, some ['x']⟩]).2 = true
    ∧ (collectImagesFromNavigator (fun _ => [42])
        [⟨some 1, none⟩, ⟨none, some ['x']⟩]).1.blobs = [1, 42] :=
  ⟨rfl, rfl⟩

/-- Claim C8 (amended): inline-markup extraction is guarded per hydrated
payload — it runs exactly when the payload at hand holds zero collected
images and a layout hint.  The event path applies this guard to the
event-sourced payload, but the platform-read path applies it per clipboard
item (and once more to the aggregate), so extraction can run for a
hint-only item even when another item contributed a binary image. -/
theorem claim_C8_amended {α : Type} (extractInline : Str → List α) :
    (∀ payload : ImgPayload α,
      (hydrateInlineImages extractInline payload).2 = true ↔
        payload.blobs = [] ∧ payload.html.isSome = true)
    ∧ (∀ item : ClipboardItemModel α,
      (collectBlobsFromClipboardItem extractInline item).2 = true ↔
        item.imageBlob = none ∧ item.html.isSome = true)
    ∧ (∀ (eventBlobs : List α) (eventHtml : Option Str),
      (collectImagesFromEvent extractInline eventBlobs eventHtml).2 = true ↔
        eventBlobs = [] ∧ eventHtml.isSome = true) := by
  have hguard : ∀ payload : ImgPayload α,
      (hydrateInlineImages extractInline payload).2 = true ↔
        payload.blobs = [] ∧ payload.html.isSome = true := by
    rintro ⟨blobs, html⟩
    cases blobs with
    | nil =>
      cases html with
      | none => simp [hydrateInlineImages]
      | some h =>
        simp only [hydrateInlineImages, List.length_nil, gt_iff_lt, Nat.lt_irrefl, if_false]
        split <;> simp
    | cons blob rest =>
      cases html <;> simp [hydrateInlineImages]
  refine ⟨hguard, ?_, ?_⟩
  · rintro ⟨imageBlob, html⟩
    cases imageBlob with
    | none => simpa [collectBlobsFromClipboardItem] using hguard ⟨[], html⟩
    | some blob => simpa [collectBlobsFromClipboardItem] using hguard ⟨[blob], html⟩
  · intro eventBlobs eventHtml
    simpa [collectImagesFromEvent] using hguard ⟨eventBlobs, eventHtml⟩
